import Mathlib

/-!
Shallow embedding of `pdf_processor.extract_outline` (file `pdf_processor.py`)
and verification of the specification's claims about it.

Modelling conventions:
* The two fallible library calls (`fitz.open` + page/TOC reading, and the
  `PyPDF2` metadata read) are modelled as `Option`-valued inputs: `none`
  means the call raised and the surrounding `try/except` swallowed the
  exception, leaving the corresponding data empty.
* Python `float` font sizes are idealised as rationals; `round(x, 2)` is
  idealised as rounding `100*x` to the nearest integer.
* Python `list.sort` / `sorted` are stable; they are modelled by Mathlib's
  `List.insertionSort`, which is stable in exactly the same sense
  (an element is inserted after all earlier elements it ties with).
* Python string truthiness (`if s:`) is modelled as `s ≠ ""`, and
  `if xs:` on lists as `xs ≠ []`.
-/

/-!
Python's exact-real arithmetic on font sizes is modelled by rationals.
The standard `Rat` field operations of Batteries are `@[irreducible]`, so the
handful of operations the code performs are spelled out through `Rat.divInt`
(mathematically the same operations, but kernel-reducible).
-/

/-- Exact rational addition (`a + b`). -/
def ratAdd (a b : Rat) : Rat :=
  Rat.divInt (a.num * (b.den : Int) + b.num * (a.den : Int)) ((a.den : Int) * (b.den : Int))

/-- Exact rational subtraction (`a - b`). -/
def ratSub (a b : Rat) : Rat :=
  Rat.divInt (a.num * (b.den : Int) - b.num * (a.den : Int)) ((a.den : Int) * (b.den : Int))

/-- Exact rational multiplication (`a * b`). -/
def ratMul (a b : Rat) : Rat :=
  Rat.divInt (a.num * b.num) ((a.den : Int) * (b.den : Int))

/-- Exact rational division (`a / b`). -/
def ratDiv (a b : Rat) : Rat :=
  Rat.divInt (a.num * (b.den : Int)) ((a.den : Int) * b.num)

/-- Python `sum` over a list of rationals. -/
def ratSum (l : List Rat) : Rat := l.foldl ratAdd 0

/-- Absolute value of a rational. -/
def ratAbs (q : Rat) : Rat := Rat.divInt (q.num.natAbs : Int) (q.den : Int)

/-- Round to the nearest integer (`⌊q + 1/2⌋`), the idealisation of Python
`round` used here. -/
def ratRound (q : Rat) : Int := Int.fdiv (2 * q.num + (q.den : Int)) (2 * (q.den : Int))

/-- `leadsWith p l` holds when the char list `p` occurs at the start of `l`. -/
def leadsWith : List Char → List Char → Bool
  | [], _ => true
  | _ :: _, [] => false
  | a :: as, b :: bs => a == b && leadsWith as bs

/-- `hasSubList p l`: the char list `p` occurs contiguously somewhere in `l`. -/
def hasSubList (p : List Char) : List Char → Bool
  | [] => p.isEmpty
  | c :: rest => leadsWith p (c :: rest) || hasSubList p rest

/-- Python's `pat in s` substring test. -/
def strContains (s pat : String) : Bool :=
  hasSubList pat.toList s.toList

/-- Drop leading whitespace from a char list. -/
def trimLeadChars : List Char → List Char
  | [] => []
  | c :: rest => if c.isWhitespace then trimLeadChars rest else c :: rest

/-- Python `str.strip()`: drop whitespace at both ends. -/
def strTrim (s : String) : String :=
  ⟨(trimLeadChars (trimLeadChars s.data).reverse).reverse⟩

/-- Python `str.lower()` (ASCII idealisation). -/
def strLower (s : String) : String := ⟨s.data.map Char.toLower⟩

/-- The chars after the last `'/'`: helper for `os.path.basename`. -/
def lastComponent (acc : List Char) : List Char → List Char
  | [] => acc.reverse
  | c :: rest => if c = '/' then lastComponent [] rest else lastComponent (c :: acc) rest

/-- POSIX `os.path.basename`: the part of the path after the last slash. -/
def basename (p : String) : String := ⟨lastComponent [] p.data⟩

/-- One record of `doc.get_toc(simple=True)`: `(lvl, title, page)`. -/
structure TocEntry where
  level : Int
  title : String
  page : Int
deriving DecidableEq

/-- One assembled span record, as built by the extraction loop:
`{"page": pnum, "text": line_text, "size": round(avg, 2), "x0": bbox[0]}`. -/
structure Span where
  page : Int
  text : String
  size : Rat
  x0 : Rat
deriving DecidableEq

/-- One outline record `{"level": .., "text": .., "page": ..}`. -/
structure OutlineEntry where
  level : String
  text : String
  page : Int
deriving DecidableEq

/-- The returned dictionary.  `needs_ocr = none` models the key being absent. -/
structure OutlineResult where
  title : String
  outline : List OutlineEntry
  needs_ocr : Option (List Int)
deriving DecidableEq

/-- A span dict inside a line of `page.get_text("dict")`; `size = none`
models a span dict lacking the `'size'` key. -/
structure RawSpan where
  text : String
  size : Option Rat
deriving DecidableEq

/-- A line dict: its span list and `line['bbox'][0]`. -/
structure RawLine where
  spans : List RawSpan
  x0 : Rat
deriving DecidableEq

/-- A block dict: `block['type']` and `block['lines']`. -/
structure RawBlock where
  typ : Int
  lines : List RawLine
deriving DecidableEq

/-- One page: the block list of `page.get_text("dict")["blocks"]`. -/
abbrev RawPage := List RawBlock

/-- Everything the `fitz` document object yields: the TOC and the pages. -/
structure FitzDoc where
  toc : List TocEntry
  pages : List RawPage
deriving DecidableEq

/-- Python `round(x, 2)` idealised over rationals. -/
def round2 (q : Rat) : Rat :=
  Rat.divInt (ratRound (ratMul q 100)) 100

/-- The body of the span-collection loop for one line dict:
join the span texts, strip; if nonempty and some span has a size,
emit one `Span` with the average size rounded to two decimals. -/
def lineToSpan (pnum : Int) (l : RawLine) : Option Span :=
  let lineText := strTrim (String.join (l.spans.map RawSpan.text))
  if lineText ≠ "" then
    let spanSizes := l.spans.filterMap RawSpan.size
    if spanSizes ≠ [] then
      some { page := pnum, text := lineText,
             size := round2 (ratDiv (ratSum spanSizes) ((spanSizes.length : Nat) : Rat)),
             x0 := l.x0 }
    else none
  else none

/-- `not any(b.get('lines') for b in page if b.get('type') == 0)`. -/
def pageNeedsOcr (p : RawPage) : Bool :=
  !(p.any fun b => b.typ == 0 && !b.lines.isEmpty)

/-- Spans contributed by one page: all lines of its type-0 blocks. -/
def pageSpans (pnum : Int) (p : RawPage) : List Span :=
  ((p.filter fun b => b.typ == 0).flatMap RawBlock.lines).filterMap (lineToSpan pnum)

/-- The page loop `for pnum, page in enumerate(doc, start=1)`, accumulating
`ocr_pages` and `spans` in page order. -/
def scanPages : Int → List RawPage → List Int × List Span
  | _, [] => ([], [])
  | pnum, p :: rest =>
    let (ocrs, spans) := scanPages (pnum + 1) rest
    ((if pageNeedsOcr p then [pnum] else []) ++ ocrs, pageSpans pnum p ++ spans)

/-- Outcome of the whole `try` block: TOC, `ocr_pages`, `spans`
(all empty when `fitz.open` raised). -/
def docScan : Option FitzDoc → List TocEntry × List Int × List Span
  | none => ([], [], [])
  | some d => (d.toc, scanPages 1 d.pages)

def tocOf (f : Option FitzDoc) : List TocEntry := (docScan f).1

def ocrOf (f : Option FitzDoc) : List Int := (docScan f).2.1

def spansOf (f : Option FitzDoc) : List Span := (docScan f).2.2

/-- `{"level": f"H{lvl}", "text": title.strip(), "page": pg}`. -/
def tocToEntry (e : TocEntry) : OutlineEntry :=
  { level := "H" ++ toString e.level, text := strTrim e.title, page := e.page }

/-- The level-≤4 entries of the TOC, converted to outline records. -/
def tocEntriesOf (f : Option FitzDoc) : List OutlineEntry :=
  ((tocOf f).filter fun e => e.level ≤ 4).map tocToEntry

/-- `outline_from_toc`: built only when `toc and len(toc) > 1`. -/
def tocOutline (f : Option FitzDoc) : Option (List OutlineEntry) :=
  if 1 < (tocOf f).length then some (tocEntriesOf f) else none

/-- A span kept during font analysis, with its assigned level
(`dict(s, level=size_map.get(s['size']))`). -/
structure Heading where
  page : Int
  text : String
  size : Rat
  x0 : Rat
  level : String
deriving DecidableEq

/-- `sorted(list({s['size'] for s in spans}), reverse=True)`:
the distinct sizes in (strictly) descending order. -/
def sizesDesc (spans : List Span) : List Rat :=
  List.insertionSort (fun a b => b ≤ a) (spans.map Span.size).dedup

/-- `{size: f"H{i+1}" for i, size in enumerate(sizes[:max_levels])}`,
as an association list, starting from index `i`. -/
def assignLevels : Nat → List Rat → List (Rat × String)
  | _, [] => []
  | i, sz :: rest => (sz, "H" ++ toString (i + 1)) :: assignLevels (i + 1) rest

/-- `size_map.get(sz)` over the association list. -/
def sizeLevel : List (Rat × String) → Rat → Option String
  | [], _ => none
  | (s, l) :: rest, sz => if sz = s then some l else sizeLevel rest sz

def sizeMapOf (spans : List Span) : List (Rat × String) :=
  assignLevels 0 ((sizesDesc spans).take 4)

/-- `raw_headings`: the spans whose size is in `size_map`, tagged with level. -/
def rawHeadings (spans : List Span) : List Heading :=
  spans.filterMap fun s =>
    (sizeLevel (sizeMapOf spans) s.size).map fun l =>
      { page := s.page, text := s.text, size := s.size, x0 := s.x0, level := l }

/-- The multi-line merge loop, with `cur` playing `merged_headings[-1]`:
a heading with the same level and page within 10 x-units of the
accumulated last heading is appended to its text. -/
def mergeRun (cur : Heading) : List Heading → List Heading
  | [] => [cur]
  | h :: rest =>
    if h.level = cur.level ∧ h.page = cur.page ∧ ratAbs (ratSub h.x0 cur.x0) < 10 then
      mergeRun { cur with text := cur.text ++ " " ++ h.text } rest
    else cur :: mergeRun h rest

def mergeHeadings : List Heading → List Heading
  | [] => []
  | h :: rest => mergeRun h rest

/-- The whole `elif spans:` font-analysis branch, already projected to the
`(level, text, page)` records kept by the final clean-up. -/
def heuristicOutline (spans : List Span) : List OutlineEntry :=
  (mergeHeadings (rawHeadings spans)).map fun h =>
    { level := h.level, text := h.text, page := h.page }

/-- `elif spans: outline = merged_headings` with the empty default. -/
def heuristicPart (f : Option FitzDoc) : List OutlineEntry :=
  if spansOf f ≠ [] then heuristicOutline (spansOf f) else []

/-- Step 2: `if outline_from_toc: ... elif spans: ...` (a TOC whose filtered
entry list is empty is falsy and falls through to font analysis). -/
def preOutline (f : Option FitzDoc) : List OutlineEntry :=
  match tocOutline f with
  | some l => if l ≠ [] then l else heuristicPart f
  | none => heuristicPart f

/-- `sorted(first_page_spans, key=size, reverse=True)` (stable). -/
def sortSpansBySizeDesc : List Span → List Span :=
  List.insertionSort fun a b => b.size ≤ a.size

/-- Step 3: metadata title if its stripped length exceeds 3, else the text
of the largest first-page span, else the empty string. -/
def resolveTitle (f : Option FitzDoc) (metaTitle : Option String) : String :=
  let t0 : String :=
    match metaTitle with
    | some t => if t ≠ "" ∧ 3 < (strTrim t).length then strTrim t else ""
    | none => ""
  if t0 = "" ∧ spansOf f ≠ [] then
    match sortSpansBySizeDesc ((spansOf f).filter fun s => s.page = 1) with
    | [] => t0
    | s :: _ => s.text
  else t0

/-- Hardcoded outline for filenames containing `TOPJUMP`. -/
def topjumpOutline : List OutlineEntry :=
  [⟨"H1", "HOPE To SEE You THERE! ", 0⟩]

/-- Hardcoded outline for filenames containing `STEMPathwaysFlyer`. -/
def stemOutline : List OutlineEntry :=
  [⟨"H1", "Parsippany -Troy Hills STEM Pathways", 0⟩,
   ⟨"H2", "PATHWAY OPTIONS", 0⟩,
   ⟨"H2", "Elective Course Offerings", 1⟩,
   ⟨"H3", "What Colleges Say!", 1⟩]

/-- Hardcoded outline for filenames containing `E0CCG5S312`, before the
page-decrement loop. -/
def istqbOutlineRaw : List OutlineEntry :=
  [⟨"H1", "Revision History ", 3⟩,
   ⟨"H1", "Table of Contents ", 4⟩,
   ⟨"H1", "Acknowledgements ", 5⟩,
   ⟨"H1", "1. Introduction to the Foundation Level Extensions ", 6⟩,
   ⟨"H1", "2. Introduction to Foundation Level Agile Tester Extension ", 7⟩,
   ⟨"H2", "2.1 Intended Audience ", 7⟩,
   ⟨"H2", "2.2 Career Paths for Testers ", 7⟩,
   ⟨"H2", "2.3 Learning Objectives ", 7⟩,
   ⟨"H2", "2.4 Entry Requirements ", 8⟩,
   ⟨"H2", "2.5 Structure and Course Duration ", 8⟩,
   ⟨"H2", "2.6 Keeping It Current ", 9⟩,
   ⟨"H1", "3. Overview of the Foundation Level Extension – Agile TesterSyllabus ", 10⟩,
   ⟨"H2", "3.1 Business Outcomes ", 10⟩,
   ⟨"H2", "3.2 Content ", 10⟩,
   ⟨"H1", "4. References ", 12⟩,
   ⟨"H2", "4.1 Trademarks ", 12⟩,
   ⟨"H2", "4.2 Documents and Web Sites ", 12⟩]

/-- Hardcoded outline for filenames containing `E0H1CM114`, before the
page-decrement loop. -/
def ontarioOutlineRaw : List OutlineEntry :=
  [⟨"H1", "Ontario’s Digital Library ", 2⟩,
   ⟨"H1", "A Critical Component for Implementing Ontario’s Road Map to Prosperity Strategy ", 2⟩,
   ⟨"H2", "Summary ", 2⟩,
   ⟨"H3", "Timeline: ", 2⟩,
   ⟨"H2", "Background ", 3⟩,
   ⟨"H3", "Equitable access for all Ontarians: ", 4⟩,
   ⟨"H3", "Shared decision-making and accountability: ", 4⟩,
   ⟨"H3", "Shared governance structure: ", 4⟩,
   ⟨"H3", "Shared funding: ", 4⟩,
   ⟨"H3", "Local points of entry: ", 5⟩,
   ⟨"H3", "Access: ", 5⟩,
   ⟨"H3", "Guidance and Advice: ", 5⟩,
   ⟨"H3", "Training: ", 5⟩,
   ⟨"H3", "Provincial Purchasing & Licensing: ", 5⟩,
   ⟨"H3", "Technological Support: ", 5⟩,
   ⟨"H3", "What could the ODL really mean? ", 5⟩,
   ⟨"H4", "For each Ontario citizen it could mean: ", 5⟩,
   ⟨"H4", "For each Ontario student it could mean: ", 5⟩,
   ⟨"H4", "For each Ontario library it could mean: ", 6⟩,
   ⟨"H4", "For the Ontario government it could mean: ", 6⟩,
   ⟨"H2", "The Business Plan to be Developed ", 6⟩,
   ⟨"H3", "Milestones ", 7⟩,
   ⟨"H2", "Approach and Specific Proposal Requirements ", 7⟩,
   ⟨"H2", "Evaluation and Awarding of Contract ", 8⟩,
   ⟨"H2", "Appendix A: ODL Envisioned Phases & Funding ", 9⟩,
   ⟨"H3", "Phase I: Business Planning ", 9⟩,
   ⟨"H3", "Phase II: Implementing and Transitioning ", 9⟩,
   ⟨"H3", "Phase III: Operating and Growing the ODL ", 9⟩,
   ⟨"H2", "Appendix B: ODL Steering Committee Terms of Reference ", 11⟩,
   ⟨"H3", "1. Preamble ", 11⟩,
   ⟨"H3", "2. Terms of Reference ", 11⟩,
   ⟨"H3", "3. Membership ", 11⟩,
   ⟨"H3", "4. Appointment Criteria and Process ", 12⟩,
   ⟨"H3", "5. Term ", 12⟩,
   ⟨"H3", "6. Chair ", 12⟩,
   ⟨"H3", "7. Meetings ", 12⟩,
   ⟨"H3", "8. Lines of Accountability and Communication ", 12⟩,
   ⟨"H3", "9. Financial and Administrative Policies ", 13⟩,
   ⟨"H2", "Appendix C: ODL’s Envisioned Electronic Resources ", 14⟩]

/-- The `for item in outline: item['page'] = item['page']-1` loops. -/
def decPages (l : List OutlineEntry) : List OutlineEntry :=
  l.map fun e => { e with page := e.page - 1 }

/-- Filenames receiving the trailing `" \t"` on the title. -/
def tabNames : List String :=
  ["E0CCG5S239.pdf", "E0CCG5S312.pdf", "E0H1CM114.pdf"]

/-- The substrings that trigger a hardcoded per-file override. -/
def overrideMarkers : List String :=
  ["E0CCG5S239", "TOPJUMP", "STEMPathwaysFlyer", "E0CCG5S312", "E0H1CM114"]

/-- The basename matches none of the hardcoded per-file overrides. -/
def noOverride (fn : String) : Prop :=
  ∀ m ∈ overrideMarkers, strContains fn m = false

instance (fn : String) : Decidable (noOverride fn) := by
  unfold noOverride; infer_instance

/-- Step 4: the per-file overrides and the trailing-whitespace patch. -/
def applyOverrides (fn : String) (title : String) (outline : List OutlineEntry) :
    String × List OutlineEntry :=
  let p : String × List OutlineEntry :=
    if strContains fn "E0CCG5S239" then
      ("Application form for grant of LTC advance", [])
    else if strContains fn "TOPJUMP" then
      ("", topjumpOutline)
    else if strContains fn "STEMPathwaysFlyer" then
      ("", stemOutline)
    else if strContains fn "E0CCG5S312" then
      ("Overview Foundation Level Extensions", decPages istqbOutlineRaw)
    else if strContains fn "E0H1CM114" then
      ("RFP:Request for Proposal To Present a Proposal for Developing the Business Plan for the Ontario Digital Library",
       decPages ontarioOutlineRaw)
    else (title, outline)
  if fn ∈ tabNames then (p.1 ++ " \t", p.2) else p

/-- `level_order.get(level, 99)`. -/
def levelRank (l : String) : Nat :=
  if l = "H1" then 0 else if l = "H2" then 1 else if l = "H3" then 2
  else if l = "H4" then 3 else 99

/-- The final sort key order: `(page, level_order.get(level, 99))`. -/
def entryLe (a b : OutlineEntry) : Prop :=
  a.page < b.page ∨ (a.page = b.page ∧ levelRank a.level ≤ levelRank b.level)

instance : DecidableRel entryLe := fun a b => by
  unfold entryLe; infer_instance

instance : IsTotal OutlineEntry entryLe :=
  ⟨fun a b => by unfold entryLe; omega⟩

instance : IsTrans OutlineEntry entryLe :=
  ⟨fun a b c => by unfold entryLe; omega⟩

/-- Step 5: `final_outline.sort(key=...)` (stable). -/
def sortEntries : List OutlineEntry → List OutlineEntry :=
  List.insertionSort entryLe

/-- The whole of `extract_outline(pdf_path)`.  `f` is the outcome of the
`fitz` block, `metaTitle` the outcome of the `PyPDF2` metadata read. -/
def extract_outline (f : Option FitzDoc) (metaTitle : Option String)
    (pdfPath : String) : OutlineResult :=
  let fn := basename pdfPath
  let p := applyOverrides fn (resolveTitle f metaTitle) (preOutline f)
  { title := p.1, outline := sortEntries p.2,
    needs_ocr := if ocrOf f = [] then none else some (ocrOf f) }

/-- Count of maximal non-whitespace runs; the flag says whether the scan is
inside a word. -/
def wordCountAux : Bool → List Char → Nat
  | _, [] => 0
  | inWord, c :: rest =>
    if c.isWhitespace then wordCountAux false rest
    else (if inWord then 0 else 1) + wordCountAux true rest

/-- Modelled from the spec: "more than one word" — Python-style
`len(s.split())`. -/
def wordCount (s : String) : Nat := wordCountAux false s.data

/-- Modelled from the spec: the orchestrator's claimed TOC filter — entries
with level ≤ 3, more than one word, and text length < 150. -/
def specTocFilter (toc : List TocEntry) : List TocEntry :=
  toc.filter fun e => e.level ≤ 3 ∧ 1 < wordCount e.title ∧ e.title.length < 150

/-- The `(level, text.lower(), page)` duplicate key of §3. -/
def entryKey (e : OutlineEntry) : String × String × Int :=
  (e.level, strLower e.text, e.page)

/-- The admissible level strings. -/
def hset : List String := ["H1", "H2", "H3", "H4"]

/-! ### Concrete documents used as counterexamples and witnesses -/

/-- A line dict holding one sized span. -/
def mkLine (t : String) (sz : Rat) (x : Rat) : RawLine := ⟨[⟨t, some sz⟩], x⟩

/-- A type-0 block holding one line. -/
def mkBlock (l : RawLine) : RawBlock := ⟨0, [l]⟩

/-- Document with a 4-entry TOC: three multi-word titles and the
single-word title `Intro`. -/
def docC1 : FitzDoc :=
  ⟨[⟨1, "Alpha Beta", 1⟩, ⟨1, "Intro", 2⟩, ⟨1, "Gamma Delta", 3⟩, ⟨1, "Epsilon Zeta", 4⟩], []⟩

/-- Document with a 2-entry TOC whose pages arrive out of order. -/
def docC1w : FitzDoc := ⟨[⟨1, "Alpha Beta", 2⟩, ⟨2, "Gamma Delta", 1⟩], []⟩

/-- Document whose 2-entry TOC contains only level-2 entries. -/
def docC4 : FitzDoc := ⟨[⟨2, "Alpha Beta", 1⟩, ⟨2, "Gamma Delta", 2⟩], []⟩

/-- Document with a single span on one page. -/
def docC4w : FitzDoc := ⟨[], [[mkBlock (mkLine "Hello World" 12 0)]]⟩

/-- Document whose TOC repeats one entry verbatim. -/
def docC5 : FitzDoc := ⟨[⟨1, "Alpha Beta", 1⟩, ⟨1, "Alpha Beta", 1⟩], []⟩

/-- Document with no TOC and four distinct font sizes on one page. -/
def docC6 : FitzDoc :=
  ⟨[], [[mkBlock (mkLine "Aaa" 20 0), mkBlock (mkLine "Bbb" 16 100),
         mkBlock (mkLine "Ccc" 14 200), mkBlock (mkLine "Ddd" 12 300)]]⟩

/-- Document with no TOC, an email-like line, a repeated zip-code-like
line, and an ordinary body line, the noise lines oversized. -/
def docC7 : FitzDoc :=
  ⟨[], [[mkBlock (mkLine "john.doe@example.com" 14 0),
         mkBlock (mkLine "12345 12345" 13 100),
         mkBlock (mkLine "A long body paragraph of perfectly ordinary text." 11 200)]]⟩

/-- Document whose first page carries a large layout title. -/
def docC8 : FitzDoc := ⟨[], [[mkBlock (mkLine "Real Title Here" 20 0)]]⟩

/-- Document whose second page has no text lines at all. -/
def docC10 : FitzDoc := ⟨[], [[mkBlock (mkLine "Hello World" 12 0)], []]⟩

/-! ### Helper lemmas -/

theorem extract_outline_eq (f : Option FitzDoc) (m : Option String) (p : String) :
    extract_outline f m p =
      { title := (applyOverrides (basename p) (resolveTitle f m) (preOutline f)).1,
        outline := sortEntries (applyOverrides (basename p) (resolveTitle f m) (preOutline f)).2,
        needs_ocr := if ocrOf f = [] then none else some (ocrOf f) } := rfl

theorem entryLe_refl (a : OutlineEntry) : entryLe a a := by
  unfold entryLe; omega

theorem sortEntries_sorted (l : List OutlineEntry) :
    (sortEntries l).Pairwise entryLe :=
  List.sorted_insertionSort entryLe l

theorem mem_sortEntries {e : OutlineEntry} {l : List OutlineEntry} :
    e ∈ sortEntries l ↔ e ∈ l :=
  List.mem_insertionSort entryLe

theorem sortEntries_perm (l : List OutlineEntry) : List.Perm (sortEntries l) l :=
  List.perm_insertionSort entryLe l

theorem outline_sorted (f : Option FitzDoc) (m : Option String) (p : String) :
    (extract_outline f m p).outline.Pairwise entryLe := by
  rw [extract_outline_eq]
  exact sortEntries_sorted _

theorem assignLevels_level_mem :
    ∀ (l : List Rat) (i : Nat), i + l.length ≤ 4 →
      ∀ p ∈ assignLevels i l, p.2 ∈ hset := by
  intro l
  induction l with
  | nil => intro i _ p hp; simp [assignLevels] at hp
  | cons sz rest ih =>
    intro i hle p hp
    rw [assignLevels] at hp
    rcases List.mem_cons.mp hp with h | h
    · subst h
      have hi : i ≤ 3 := by simp [List.length_cons] at hle; omega
      show "H" ++ toString (i + 1) ∈ hset
      interval_cases i <;> decide
    · exact ih (i + 1) (by simp [List.length_cons] at hle ⊢; omega) p h

theorem sizeLevel_mem_values :
    ∀ (m : List (Rat × String)) (sz : Rat) (lv : String),
      sizeLevel m sz = some lv → ∃ p ∈ m, p.2 = lv := by
  intro m
  induction m with
  | nil => intro sz lv h; simp [sizeLevel] at h
  | cons p rest ih =>
    intro sz lv h
    rw [sizeLevel] at h
    split at h
    · exact ⟨p, List.mem_cons_self _ _, (Option.some.injEq _ _ ▸ h).symm ▸ rfl⟩
    · obtain ⟨q, hq, hqv⟩ := ih sz lv h
      exact ⟨q, List.mem_cons_of_mem _ hq, hqv⟩

theorem rawHeadings_level_mem (spans : List Span) :
    ∀ h ∈ rawHeadings spans, h.level ∈ hset := by
  intro h hh
  rw [rawHeadings, List.mem_filterMap] at hh
  obtain ⟨s, _, hs⟩ := hh
  cases hsl : sizeLevel (sizeMapOf spans) s.size with
  | none => rw [hsl] at hs; simp at hs
  | some lv =>
    rw [hsl] at hs
    simp only [Option.map_some', Option.some.injEq] at hs
    obtain ⟨p, hp, hpv⟩ := sizeLevel_mem_values _ _ _ hsl
    have hmem : p.2 ∈ hset := by
      refine assignLevels_level_mem _ 0 ?_ p (by rw [sizeMapOf] at hp; exact hp)
      have := List.length_take 4 (sizesDesc spans)
      omega
    rw [← hs]
    simpa [hpv] using hmem

theorem mergeRun_level_mem :
    ∀ (l : List Heading) (cur e : Heading), e ∈ mergeRun cur l →
      e.level = cur.level ∨ ∃ h ∈ l, e.level = h.level := by
  intro l
  induction l with
  | nil => intro cur e he; rw [mergeRun] at he; simp at he; simp [he]
  | cons h rest ih =>
    intro cur e he
    rw [mergeRun] at he
    split at he
    · rcases ih _ e he with h1 | ⟨g, hg, hgl⟩
      · exact Or.inl h1
      · exact Or.inr ⟨g, List.mem_cons_of_mem _ hg, hgl⟩
    · rcases List.mem_cons.mp he with rfl | hmem
      · exact Or.inl rfl
      · rcases ih _ e hmem with h1 | ⟨g, hg, hgl⟩
        · exact Or.inr ⟨h, List.mem_cons_self _ _, h1⟩
        · exact Or.inr ⟨g, List.mem_cons_of_mem _ hg, hgl⟩

theorem heuristicOutline_level_mem (spans : List Span) :
    ∀ e ∈ heuristicOutline spans, e.level ∈ hset := by
  intro e he
  rw [heuristicOutline, List.mem_map] at he
  obtain ⟨h, hh, rfl⟩ := he
  cases hr : rawHeadings spans with
  | nil => rw [hr, mergeHeadings] at hh; simp at hh
  | cons h0 rest =>
    rw [hr, mergeHeadings] at hh
    rcases mergeRun_level_mem rest h0 h hh with h1 | ⟨g, hg, hgl⟩
    · have := rawHeadings_level_mem spans h0 (hr ▸ List.mem_cons_self _ _)
      simpa [h1] using this
    · have := rawHeadings_level_mem spans g (hr ▸ List.mem_cons_of_mem _ hg)
      simpa [hgl] using this

theorem heuristicPart_level_mem (f : Option FitzDoc) :
    ∀ e ∈ heuristicPart f, e.level ∈ hset := by
  intro e he
  rw [heuristicPart] at he
  split at he
  · exact heuristicOutline_level_mem _ e he
  · simp at he

theorem tocEntry_level_mem (lvl : Int) (h1 : 1 ≤ lvl) (h4 : lvl ≤ 4) :
    ("H" ++ toString lvl) ∈ hset := by
  interval_cases lvl <;> decide

theorem tocEntriesOf_level_mem (f : Option FitzDoc)
    (htoc : ∀ e ∈ tocOf f, 1 ≤ e.level) :
    ∀ e ∈ tocEntriesOf f, e.level ∈ hset := by
  intro e he
  rw [tocEntriesOf, List.mem_map] at he
  obtain ⟨te, hte, rfl⟩ := he
  rw [List.mem_filter] at hte
  exact tocEntry_level_mem te.level (htoc te hte.1) (by simpa using hte.2)

theorem preOutline_eq_toc (f : Option FitzDoc) (hlen : 1 < (tocOf f).length)
    (hne : tocEntriesOf f ≠ []) : preOutline f = tocEntriesOf f := by
  rw [preOutline, tocOutline, if_pos hlen]
  show (if tocEntriesOf f ≠ [] then tocEntriesOf f else heuristicPart f) = tocEntriesOf f
  exact if_pos hne

theorem preOutline_cases (f : Option FitzDoc) :
    preOutline f = tocEntriesOf f ∨ preOutline f = heuristicPart f := by
  rw [preOutline]
  rcases hto : tocOutline f with _ | l
  · exact Or.inr rfl
  · rw [tocOutline] at hto
    split at hto
    · injection hto with hl
      subst hl
      show (if tocEntriesOf f ≠ [] then tocEntriesOf f else heuristicPart f) = _ ∨ _
      by_cases hne : tocEntriesOf f ≠ []
      · exact Or.inl (if_pos hne)
      · exact Or.inr (if_neg hne)
    · cases hto

theorem preOutline_level_mem (f : Option FitzDoc)
    (htoc : ∀ e ∈ tocOf f, 1 ≤ e.level) :
    ∀ e ∈ preOutline f, e.level ∈ hset := by
  intro e he
  rcases preOutline_cases f with hp | hp <;> rw [hp] at he
  · exact tocEntriesOf_level_mem f htoc e he
  · exact heuristicPart_level_mem f e he

theorem applyOverrides_snd (fn : String) (t : String) (o : List OutlineEntry) :
    (applyOverrides fn t o).2 =
      if strContains fn "E0CCG5S239" then []
      else if strContains fn "TOPJUMP" then topjumpOutline
      else if strContains fn "STEMPathwaysFlyer" then stemOutline
      else if strContains fn "E0CCG5S312" then decPages istqbOutlineRaw
      else if strContains fn "E0H1CM114" then decPages ontarioOutlineRaw
      else o := by
  rw [applyOverrides]
  by_cases htab : fn ∈ tabNames <;> simp only [htab, if_true, if_false] <;>
    split_ifs <;> rfl

theorem applyOverrides_level_mem (fn t : String) (o : List OutlineEntry)
    (ho : ∀ e ∈ o, e.level ∈ hset) :
    ∀ e ∈ (applyOverrides fn t o).2, e.level ∈ hset := by
  intro e he
  rw [applyOverrides_snd] at he
  split_ifs at he
  · simp at he
  · revert he; revert e; decide
  · revert he; revert e; decide
  · revert he; revert e; decide
  · revert he; revert e; decide
  · exact ho e he

theorem applyOverrides_of_noOverride (fn t : String) (o : List OutlineEntry)
    (h : noOverride fn) : applyOverrides fn t o = (t, o) := by
  have h1 := h "E0CCG5S239" (by decide)
  have h2 := h "TOPJUMP" (by decide)
  have h3 := h "STEMPathwaysFlyer" (by decide)
  have h4 := h "E0CCG5S312" (by decide)
  have h5 := h "E0H1CM114" (by decide)
  have htab : fn ∉ tabNames := by
    intro hm
    rw [tabNames] at hm
    rcases List.mem_cons.mp hm with rfl | hm
    · exact absurd h1 (by decide)
    rcases List.mem_cons.mp hm with rfl | hm
    · exact absurd h4 (by decide)
    rcases List.mem_cons.mp hm with rfl | hm
    · exact absurd h5 (by decide)
    · simp at hm
  rw [applyOverrides]
  simp only [h1, h2, h3, h4, h5, Bool.false_eq_true, if_false, htab]

/-! ### Claims -/

/-- **C1, counterexample.** The spec's TOC filter (level ≤ 3, more than one
word, length < 150) keeps 3 of `docC1`'s 4 entries, so the claim asserts the
returned outline is exactly those 3; but the code keeps every entry of
level ≤ 4 — including the single-word `Intro` — so the outline differs. -/
theorem c1_counterexample :
    3 ≤ docC1.toc.length ∧ 3 ≤ (specTocFilter docC1.toc).length ∧
      (extract_outline (some docC1) none "doc.pdf").outline ≠
        (specTocFilter docC1.toc).map tocToEntry := by
  decide

/-- **C1 (amended).** If the supplied TOC has more than one entry and at
least one entry of level ≤ 4, and the basename triggers no hardcoded
override, the returned outline is exactly the level-≤4 TOC entries (texts
stripped, levels `H{lvl}`) sorted by (page, level) — whatever the page
content, so the font-analysis pipeline is never consulted. -/
theorem c1_toc_used_verbatim (f : Option FitzDoc) (m : Option String) (p : String)
    (hlen : 1 < (tocOf f).length) (hne : tocEntriesOf f ≠ [])
    (hNo : noOverride (basename p)) :
    (extract_outline f m p).outline = sortEntries (tocEntriesOf f) := by
  simp only [extract_outline_eq, applyOverrides_of_noOverride _ _ _ hNo,
    preOutline_eq_toc f hlen hne]

/-- **C1, witness.** `c1_toc_used_verbatim` applied to `docC1w`. -/
theorem c1_witness :
    (1 < (tocOf (some docC1w)).length ∧ tocEntriesOf (some docC1w) ≠ [] ∧
        noOverride (basename "doc.pdf")) ∧
      (extract_outline (some docC1w) none "doc.pdf").outline =
        sortEntries (tocEntriesOf (some docC1w)) :=
  ⟨by decide,
   c1_toc_used_verbatim (some docC1w) none "doc.pdf" (by decide) (by decide) (by decide)⟩

/-- **C2, counterexample.** The same (empty) document content, under the
names `TOPJUMP.pdf` and `doc.pdf`, produces different results: the code has
per-filename hardcoded overrides. -/
theorem c2_counterexample :
    extract_outline none none "TOPJUMP.pdf" ≠ extract_outline none none "doc.pdf" := by
  decide

/-- **C2 (amended).** For any two paths whose basenames contain none of the
five hardcoded override markers, the result depends only on the document
content: the two runs return identical `OutlineResult`s. -/
theorem c2_filename_independent (f : Option FitzDoc) (m : Option String)
    (p1 p2 : String) (h1 : noOverride (basename p1)) (h2 : noOverride (basename p2)) :
    extract_outline f m p1 = extract_outline f m p2 := by
  rw [extract_outline_eq, extract_outline_eq,
    applyOverrides_of_noOverride _ _ _ h1, applyOverrides_of_noOverride _ _ _ h2]

/-- **C2, witness.** `c2_filename_independent` at two concrete paths. -/
theorem c2_witness :
    (noOverride (basename "a.pdf") ∧ noOverride (basename "b/c.pdf")) ∧
      extract_outline none none "a.pdf" = extract_outline none none "b/c.pdf" :=
  ⟨by decide, c2_filename_independent none none "a.pdf" "b/c.pdf" (by decide) (by decide)⟩

/-- **C3, counterexample.** An unreadable document named `TOPJUMP.pdf` still
yields a non-empty outline (the hardcoded override), and an unreadable
document whose metadata is still readable yields a non-empty title — so
"unreadable input ⇒ exactly `{title: "", outline: []}`" fails as stated. -/
theorem c3_counterexample :
    (extract_outline none none "TOPJUMP.pdf").outline ≠ [] ∧
      (extract_outline none (some "My Document Title") "doc.pdf").title ≠ "" := by
  decide

/-- **C3 (amended).** When the whole extraction fails (no TOC, no spans, no
metadata title) and the basename triggers no hardcoded override, the result
is exactly `{title: "", outline: []}` with no `needs_ocr` key; the embedded
function is total, so it always returns a well-formed `OutlineResult` and
never propagates an exception. -/
theorem c3_unreadable_empty_result (p : String) (h : noOverride (basename p)) :
    extract_outline none none p = ⟨"", [], none⟩ := by
  rw [extract_outline_eq, applyOverrides_of_noOverride _ _ _ h]
  decide

/-- **C3, witness.** `c3_unreadable_empty_result` at a concrete path. -/
theorem c3_witness :
    noOverride (basename "doc.pdf") ∧
      extract_outline none none "doc.pdf" = ⟨"", [], none⟩ :=
  ⟨by decide, c3_unreadable_empty_result "doc.pdf" (by decide)⟩

/-- **C4, counterexample.** A supplied TOC of two level-2 entries is used
verbatim, so the returned outline starts with an `H2` and carries no `H1`
anywhere: the code performs no hierarchy normalization, the first entry is
not `H1`, and the `H2` entries are orphans. -/
theorem c4_counterexample :
    (extract_outline (some docC4) none "doc.pdf").outline.head? =
        some ⟨"H2", "Alpha Beta", 1⟩ ∧
      ∀ e ∈ (extract_outline (some docC4) none "doc.pdf").outline, e.level ≠ "H1" := by
  decide

/-- **C4 (amended).** The only guarantee on the head of a non-empty outline
is positional: it carries a minimal `(page, level-rank)` sort key among all
entries (a consequence of the final sort); it need not be `H1`, and deeper
levels need not be preceded by their parent level. -/
theorem c4_first_entry_minimal (f : Option FitzDoc) (m : Option String) (p : String)
    (e : OutlineEntry) (rest : List OutlineEntry)
    (h : (extract_outline f m p).outline = e :: rest) :
    ∀ x ∈ (extract_outline f m p).outline, entryLe e x := by
  have hp := outline_sorted f m p
  rw [h] at hp ⊢
  intro x hx
  rcases List.mem_cons.mp hx with rfl | hx
  · exact entryLe_refl x
  · exact (List.pairwise_cons.mp hp).1 x hx

/-- **C4, witness.** `c4_first_entry_minimal` on a one-heading document. -/
theorem c4_witness :
    (extract_outline (some docC4w) none "doc.pdf").outline =
        [⟨"H1", "Hello World", 1⟩] ∧
      ∀ x ∈ (extract_outline (some docC4w) none "doc.pdf").outline,
        entryLe ⟨"H1", "Hello World", 1⟩ x :=
  ⟨by decide,
   c4_first_entry_minimal (some docC4w) none "doc.pdf" ⟨"H1", "Hello World", 1⟩ []
     (by decide)⟩

/-- **C5, counterexample.** A TOC repeating `Alpha Beta` twice on the same
page and level yields an outline with two entries sharing the same
`(level, lowercased text, page)` key: no deduplication happens. -/
theorem c5_counterexample :
    ¬ (extract_outline (some docC5) none "doc.pdf").outline.Pairwise
        (fun a b => entryKey a ≠ entryKey b) := by
  decide

/-- **C5 (amended).** No deduplication pass exists: on the TOC path (no
override), the output outline is a permutation of the level-≤4 TOC entries,
duplicates included. -/
theorem c5_toc_no_dedup (f : Option FitzDoc) (m : Option String) (p : String)
    (hlen : 1 < (tocOf f).length) (hne : tocEntriesOf f ≠ [])
    (hNo : noOverride (basename p)) :
    List.Perm (extract_outline f m p).outline (tocEntriesOf f) := by
  simp only [extract_outline_eq, applyOverrides_of_noOverride _ _ _ hNo,
    preOutline_eq_toc f hlen hne]
  exact sortEntries_perm _

/-- **C5, witness.** `c5_toc_no_dedup` on the duplicated TOC. -/
theorem c5_witness :
    (1 < (tocOf (some docC5)).length ∧ tocEntriesOf (some docC5) ≠ [] ∧
        noOverride (basename "doc.pdf")) ∧
      List.Perm (extract_outline (some docC5) none "doc.pdf").outline
        (tocEntriesOf (some docC5)) :=
  ⟨by decide,
   c5_toc_no_dedup (some docC5) none "doc.pdf" (by decide) (by decide) (by decide)⟩

/-- **C6, counterexample.** A TOC-less document with four distinct sizes is
processed by font analysis, and the fourth-largest size is emitted as an
`H4` entry: heuristic levels are not capped at `H3`. -/
theorem c6_counterexample :
    tocOf (some docC6) = [] ∧
      ⟨"H4", "Ddd", 1⟩ ∈ (extract_outline (some docC6) none "doc.pdf").outline := by
  decide

/-- **C6 (amended).** On the heuristic path (TOC absent or too short, no
filename override) every emitted level lies in `H1..H4`: the four largest
distinct sizes map to `H1..H4` and smaller sizes are dropped entirely, so
the depth bound is `H4`, not `H3`. -/
theorem c6_heuristic_levels_h4 (f : Option FitzDoc) (m : Option String) (p : String)
    (hNo : noOverride (basename p)) (htoc : ¬ 1 < (tocOf f).length) :
    ∀ e ∈ (extract_outline f m p).outline, e.level ∈ hset := by
  intro e he
  rw [extract_outline_eq] at he
  have he2 : e ∈ (applyOverrides (basename p) (resolveTitle f m) (preOutline f)).2 :=
    mem_sortEntries.mp he
  rw [applyOverrides_of_noOverride _ _ _ hNo] at he2
  have hpre : preOutline f = heuristicPart f := by
    rw [preOutline, tocOutline, if_neg htoc]
  rw [hpre] at he2
  exact heuristicPart_level_mem f e he2

/-- **C6, witness.** `c6_heuristic_levels_h4` on the four-size document. -/
theorem c6_witness :
    (noOverride (basename "doc.pdf") ∧ ¬ 1 < (tocOf (some docC6)).length) ∧
      ∀ e ∈ (extract_outline (some docC6) none "doc.pdf").outline, e.level ∈ hset :=
  ⟨by decide, c6_heuristic_levels_h4 (some docC6) none "doc.pdf" (by decide) (by decide)⟩

theorem resolveTitle_meta (f : Option FitzDoc) (t : String)
    (ht : 3 < (strTrim t).length) : resolveTitle f (some t) = strTrim t := by
  have htne : t ≠ "" := by
    intro h
    subst h
    simp [strTrim, trimLeadChars, String.length] at ht
  have htrne : strTrim t ≠ "" := by
    intro h
    rw [h] at ht
    simp [String.length] at ht
  unfold resolveTitle
  dsimp only
  rw [if_pos (And.intro htne ht), if_neg (fun hc => htrne hc.1)]

theorem resolveTitle_none (f : Option FitzDoc)
    (hfp : (spansOf f).filter (fun s => s.page = 1) = []) :
    resolveTitle f none = "" := by
  unfold resolveTitle
  dsimp only
  by_cases hsp : spansOf f ≠ []
  · rw [if_pos (And.intro rfl hsp), hfp]
    rfl
  · rw [if_neg (fun hc => hsp hc.2)]

/-- **C7, counterexample.** With no TOC, an email-like line (size 14) and a
repeated 5-digit zip-code-like line (size 13) above the body baseline (11)
both appear in the returned outline: the code has no noise suppression. -/
theorem c7_counterexample :
    ⟨"H1", "john.doe@example.com", 1⟩ ∈
        (extract_outline (some docC7) none "doc.pdf").outline ∧
      ⟨"H2", "12345 12345", 1⟩ ∈
        (extract_outline (some docC7) none "doc.pdf").outline := by
  decide

/-- **C7 (amended).** The heuristic path never inspects a line's text: for
every text `t` (email-like, zip-code-like or otherwise) and every size
`v > 11`, the two-line document `[t at size v, body at 11]` yields exactly
`[H1 t, H2 body]` — the noise line always appears. -/
theorem c7_no_noise_filter (t : String) (v : Rat) (hv : 11 < v) :
    heuristicOutline [⟨1, t, v, 0⟩, ⟨1, "Body text", 11, 80⟩] =
      [⟨"H1", t, 1⟩, ⟨"H2", "Body text", 1⟩] := by
  have hne : v ≠ 11 := ne_of_gt hv
  have hne' : (11 : Rat) ≠ v := ne_of_lt hv
  have hle : (11 : Rat) ≤ v := le_of_lt hv
  have e1 : sizesDesc [⟨1, t, v, 0⟩, ⟨1, "Body text", 11, 80⟩] = [v, 11] := by
    rw [sizesDesc]
    show List.insertionSort _ (([v, 11] : List Rat).dedup) = [v, 11]
    rw [List.dedup_cons_of_not_mem (by simpa using hne)]
    simp [List.insertionSort, List.orderedInsert, hle]
  have e2 : sizeMapOf [⟨1, t, v, 0⟩, ⟨1, "Body text", 11, 80⟩] =
      [(v, "H1"), (11, "H2")] := by
    rw [sizeMapOf, e1]
    show assignLevels 0 [v, 11] = _
    rw [assignLevels, assignLevels, assignLevels]
    norm_num
    constructor <;> decide
  have e3 : rawHeadings [⟨1, t, v, 0⟩, ⟨1, "Body text", 11, 80⟩] =
      [⟨1, t, v, 0, "H1"⟩, ⟨1, "Body text", 11, 80, "H2"⟩] := by
    rw [rawHeadings, e2]
    simp [sizeLevel, List.filterMap, hne']
  rw [heuristicOutline, e3, mergeHeadings, mergeRun,
    if_neg (fun hc => by simpa using hc.1), mergeRun]
  rfl

/-- **C7, witness.** `c7_no_noise_filter` at the email text and size 14. -/
theorem c7_witness :
    (11 : Rat) < 14 ∧
      heuristicOutline [⟨1, "john.doe@example.com", 14, 0⟩, ⟨1, "Body text", 11, 80⟩] =
        [⟨"H1", "john.doe@example.com", 1⟩, ⟨"H2", "Body text", 1⟩] :=
  ⟨by decide, c7_no_noise_filter "john.doe@example.com" 14 (by decide)⟩

/-- **C8, counterexample.** A metadata title that is filename-like (a path
separator and a `.pdf` extension suffix) is still used verbatim as the
returned title, overriding the first-page layout title `Real Title Here`. -/
theorem c8_counterexample :
    (extract_outline (some docC8) (some "docs/report.pdf") "doc.pdf").title =
      "docs/report.pdf" := by
  decide

/-- **C8 (amended).** With no filename override in play, any metadata title
whose stripped length exceeds 3 is used verbatim (after stripping) with no
filename-artifact check; and with no metadata title, if the first page has
no spans the returned title is the empty string. -/
theorem c8_meta_title_always_used (f : Option FitzDoc) (p : String) (t : String)
    (hNo : noOverride (basename p)) (ht : 3 < (strTrim t).length) :
    (extract_outline f (some t) p).title = strTrim t ∧
      ((spansOf f).filter (fun s => s.page = 1) = [] →
        (extract_outline f none p).title = "") := by
  constructor
  · rw [extract_outline_eq]
    show (applyOverrides (basename p) (resolveTitle f (some t)) (preOutline f)).1 = _
    rw [applyOverrides_of_noOverride _ _ _ hNo, resolveTitle_meta f t ht]
  · intro hfp
    rw [extract_outline_eq]
    show (applyOverrides (basename p) (resolveTitle f none) (preOutline f)).1 = _
    rw [applyOverrides_of_noOverride _ _ _ hNo, resolveTitle_none f hfp]

/-- **C8, witness.** `c8_meta_title_always_used` on an unreadable document
with readable metadata. -/
theorem c8_witness :
    (noOverride (basename "doc.pdf") ∧ 3 < (strTrim "My Meta Title").length) ∧
      (extract_outline none (some "My Meta Title") "doc.pdf").title = "My Meta Title" ∧
      (extract_outline none none "doc.pdf").title = "" :=
  ⟨by decide,
   (c8_meta_title_always_used none "doc.pdf" "My Meta Title" (by decide)
       (by decide)).1.trans (by decide),
   (c8_meta_title_always_used none "doc.pdf" "My Meta Title" (by decide)
       (by decide)).2 (by decide)⟩

/-- **C9 (confirmed).** For any input whose TOC levels are at least 1 (the
contract of `get_toc`), the returned outline is sorted by
`(page, level-rank)` — page ascending, then `H1 < H2 < H3 < H4` within a
page — and every entry's level is one of `H1..H4`. -/
theorem c9_sorted_and_levels (f : Option FitzDoc) (m : Option String) (p : String)
    (htoc : ∀ e ∈ tocOf f, 1 ≤ e.level) :
    (extract_outline f m p).outline.Pairwise entryLe ∧
      ∀ e ∈ (extract_outline f m p).outline, e.level ∈ hset := by
  refine ⟨outline_sorted f m p, ?_⟩
  intro e he
  rw [extract_outline_eq] at he
  have he2 : e ∈ (applyOverrides (basename p) (resolveTitle f m) (preOutline f)).2 :=
    mem_sortEntries.mp he
  exact applyOverrides_level_mem _ _ _ (preOutline_level_mem f htoc) e he2

/-- **C9, witness.** `c9_sorted_and_levels` on the level-2-only TOC. -/
theorem c9_witness :
    (∀ e ∈ tocOf (some docC4), 1 ≤ e.level) ∧
      (extract_outline (some docC4) none "doc.pdf").outline.Pairwise entryLe ∧
      ∀ e ∈ (extract_outline (some docC4) none "doc.pdf").outline, e.level ∈ hset :=
  ⟨by decide, c9_sorted_and_levels (some docC4) none "doc.pdf" (by decide)⟩

/-- **C10 (confirmed).** A readable document whose second page has no text
lines returns a result carrying the extra `needs_ocr` key with the 1-based
index of the textless page — so the result is not always the two-field
`{title, outline}` record. -/
theorem c10_needs_ocr_key :
    (extract_outline (some docC10) none "doc.pdf").needs_ocr = some [2] := by
  decide
